import Mathlib

/-!
# PotatoLeafDetector: the screen of `App.js`

A shallow embedding of the single React component of the repository.

* The three `useState` cells are the record `State`.
* `pickImage` and `uploadImage` are asynchronous functions whose only
  observable behaviour is the sequence of calls they make to the state
  setters, to `Alert.alert` and to `axios.post`.  They are embedded as pure
  functions from what the environment answers (permission status, picker
  result, outcome of the POST) to that sequence of calls, a `List Effect`.
  `console.log` / `console.error` calls touch nothing and are left out.
* `State.run` replays the setter calls of a trace on a state.
* The controls of the rendered screen (select, get prediction, delete) and
  the completion of an outstanding POST are the events of `step`.

JavaScript strings are modelled as lists of characters.
-/

namespace PotatoLeafDetector

/-! ## Values -/

/-- A JavaScript string. -/
abbrev JSString := List Char

/-- The body of a response (`response.data`) and the content of the
`prediction` cell.  A number is kept as a decimal numeral, `digits * 10 ^ (-scale)`. -/
inductive JSValue where
  | null
  | bool (b : Bool)
  | num (digits : Int) (scale : Nat)
  | str (s : JSString)
  | arr (items : List JSValue)
  | obj (fields : List (JSString × JSValue))

/-- Truthiness of a value, as used by `prediction && ...` and
`selectedImage || prediction`. -/
def JSValue.truthy : JSValue → Bool
  | .null => false
  | .bool b => b
  | .num digits _ => decide (digits ≠ 0)
  | .str s => !s.isEmpty
  | .arr _ => true
  | .obj _ => true

/-- Truthiness of a cell that holds `null`/`undefined` or a string:
`!x` is `true` exactly for `null`, `undefined` and `''`. -/
def truthy : Option JSString → Bool
  | none => false
  | some s => !s.isEmpty

/-! ## String primitives used by the component -/

/-- `s.split(sep)` for a one-character separator: the segments between the
occurrences of `sep`; `''.split(sep)` is `['']`. -/
def split (sep : Char) : JSString → List JSString
  | [] => [[]]
  | c :: cs =>
    if c = sep then [] :: split sep cs
    else
      match split sep cs with
      | [] => [[c]]
      | seg :: segs => (c :: seg) :: segs

/-- `array.pop()`: the last element, `undefined` on an empty array. -/
def pop (segments : List JSString) : Option JSString := segments.getLast?

/-- `s.toLowerCase()`.  Only the letters `A`-`Z` are mapped; no other code
point lower-cases to a letter of `jpg`, `jpeg` or `png`, so membership in
`validFormats` is the one of the JavaScript function. -/
def toLowerCase (s : JSString) : JSString := s.map Char.toLower

/-- `const validFormats = ['jpg', 'jpeg', 'png']`. -/
def validFormats : List JSString := ["jpg".toList, "jpeg".toList, "png".toList]

/-- `array.includes(x)` where `x` may be `undefined`. -/
def includes (array : List JSString) : Option JSString → Bool
  | none => false
  | some x => array.contains x

/-- `uri.split('.').pop()?.toLowerCase()`. -/
def extension (uri : JSString) : Option JSString :=
  (pop (split '.' uri)).map toLowerCase

/-- The class `\w` of a regular expression without flags. -/
def isWordChar (c : Char) : Bool :=
  c.isAlphanum || c == '_'

/-- Attempt of `/\.(\w+)$/` at the start of `s`: a dot, then one or more word
characters up to the end of the input.  Returns the capture group. -/
def matchHere : JSString → Option JSString
  | '.' :: rest => if !rest.isEmpty && rest.all isWordChar then some rest else none
  | _ => none

/-- `/\.(\w+)$/.exec(s)`: the leftmost position at which the pattern matches,
as its capture group `match[1]`; `none` is `null`. -/
def regexExec : JSString → Option JSString
  | [] => none
  | c :: cs =>
    match matchHere (c :: cs) with
    | some g => some g
    | none => regexExec cs

/-! ## Effects and state -/

/-- The object appended to the form: `{ uri, type, name }`. -/
structure FilePart where
  uri : JSString
  type : JSString
  name : JSString
deriving DecidableEq

/-- The arguments of the one call `axios.post(API_URL, formData, config)`. -/
structure PostRequest where
  url : JSString
  field : JSString
  file : FilePart
  contentType : JSString
  timeout : Nat
deriving DecidableEq

/-- The calls the two handlers make. -/
inductive Effect where
  | alert (title message : JSString)
  | setSelectedImage (v : Option JSString)
  | setPrediction (v : JSValue)
  | setIsLoading (b : Bool)
  | post (request : PostRequest)

/-- The three `useState` cells of `App`. -/
structure State where
  selectedImage : Option JSString
  prediction : JSValue
  isLoading : Bool

/-- `useState(null)`, `useState(null)`, `useState(false)`. -/
def State.initial : State :=
  { selectedImage := none, prediction := .null, isLoading := false }

/-- Effect of one call on the cells. -/
def State.apply (s : State) : Effect → State
  | .alert _ _ => s
  | .setSelectedImage v => { s with selectedImage := v }
  | .setPrediction v => { s with prediction := v }
  | .setIsLoading b => { s with isLoading := b }
  | .post _ => s

/-- The cells after a sequence of calls. -/
def State.run (s : State) (trace : List Effect) : State :=
  trace.foldl State.apply s

/-! ## `pickImage` -/

/-- An error thrown or a rejected promise: `error.response` (by its
`status`), whether `error.request` is set, and `error.message`. -/
structure JSError where
  response : Option Nat
  request : Bool
  message : JSString
deriving DecidableEq

/-- One element of `result.assets`. -/
structure Asset where
  uri : JSString
deriving DecidableEq

/-- What `launchImageLibraryAsync` resolves to. -/
structure PickerResult where
  canceled : Bool
  assets : Option (List Asset)
deriving DecidableEq

/-- The notice of the `catch` block of `pickImage`. -/
def pickFailedAlert : Effect :=
  .alert "Error".toList "Failed to select image. Please try again.".toList

/-- The notice shown when the permission is not granted. -/
def permissionDeniedAlert : Effect :=
  .alert "Permission Denied".toList
    "We need camera roll permissions to select images.".toList

/-- The notice shown when the extension is not in `validFormats`. -/
def invalidFormatAlert : Effect :=
  .alert "Invalid Format".toList "Please select a JPG or PNG image.".toList

/-- The handler `pickImage`.  `permission` is what
`requestMediaLibraryPermissionsAsync` answers (its `status`, or a rejection)
and `launch` what `launchImageLibraryAsync` answers when it is called. -/
def pickImage (permission : Except JSError JSString)
    (launch : Except JSError PickerResult) : List Effect :=
  match permission with
  | .error _ => [pickFailedAlert]
  | .ok status =>
    if status ≠ "granted".toList then [permissionDeniedAlert]
    else
      match launch with
      | .error _ => [pickFailedAlert]
      | .ok result =>
        match result.canceled, result.assets with
        | false, some (selectedAsset :: _) =>
          let uri := selectedAsset.uri
          if !includes validFormats (extension uri) then [invalidFormatAlert]
          else [.setSelectedImage (some uri), .setPrediction .null]
        | _, _ => []

/-! ## `uploadImage` -/

/-- Lines 88-97: the part built from `selectedImage`. -/
def buildPart (selectedImage : JSString) : FilePart :=
  let filename := pop (split '/' selectedImage)
  let found := filename.bind regexExec
  let type :=
    match found with
    | some group => "image/".toList ++ group
    | none => "image/jpeg".toList
  { uri := selectedImage
    type := type
    name := if truthy filename then filename.getD [] else "photo.jpg".toList }

/-- The request of lines 101-106. -/
def buildRequest (url selectedImage : JSString) : PostRequest :=
  { url := url
    field := "file".toList
    file := buildPart selectedImage
    contentType := "multipart/form-data".toList
    timeout := 15000 }

/-- The notice of the first guard of `uploadImage`. -/
def noImageAlert : Effect :=
  .alert "No Image".toList "Please select a potato leaf image first.".toList

/-- The notice of the second guard of `uploadImage`. -/
def configErrorAlert : Effect :=
  .alert "Configuration Error".toList
    "API URL is not configured. Please check your setup.".toList

/-- The synchronous part of `uploadImage`, up to the `await`: the two
guards, `setIsLoading(true)` and the call of `axios.post`.  Returns the calls
made and the request left outstanding, if any. -/
def uploadStart (API_URL : Option JSString) (s : State) :
    List Effect × Option PostRequest :=
  match s.selectedImage with
  | none => ([noImageAlert], none)
  | some [] => ([noImageAlert], none)
  | some (c :: cs) =>
    match API_URL with
    | none => ([configErrorAlert], none)
    | some [] => ([configErrorAlert], none)
    | some (u :: us) =>
      let request := buildRequest (u :: us) (c :: cs)
      ([.setIsLoading true, .post request], some request)

/-- How the awaited `axios.post` ends. -/
inductive PostOutcome where
  | resolved (data : JSValue)
  | rejected (error : JSError)

/-- The text of the fixed notice of the `error.request` branch. -/
def noResponseMessage : JSString :=
  "No response from server.\n\nCheck:\n• Is the API running?\n• Same WiFi network?\n• Correct IP address?".toList

/-- The `if / else if / else` of the `catch` block: the value of
`errorMessage` when the alert is shown. -/
def errorMessage (error : JSError) : JSString :=
  match error.response with
  | some status => "Server error: ".toList ++ (toString status).toList
  | none =>
    if error.request then noResponseMessage
    else error.message

/-- The rest of `uploadImage` after the `await`: `setPrediction` or the
`catch` block, then the `finally` block. -/
def uploadFinish : PostOutcome → List Effect
  | .resolved data => [.setPrediction data, .setIsLoading false]
  | .rejected error =>
    [.alert "Prediction Failed ❌".toList (errorMessage error), .setIsLoading false]

/-- The handler `uploadImage`: every call it makes, given how the POST ends. -/
def uploadImage (API_URL : Option JSString) (s : State) (outcome : PostOutcome) :
    List Effect :=
  match uploadStart API_URL s with
  | (calls, none) => calls
  | (calls, some _) => calls ++ uploadFinish outcome

/-! ## The screen -/

/-- The screen: the cells, the POST requests that have been issued and have
not ended yet, and (ghost) the URI uploaded by the request whose response was
last stored in `prediction`. -/
structure Screen where
  state : State
  inflight : List PostRequest
  source : Option JSString

/-- The screen at mount. -/
def Screen.initial : Screen :=
  { state := State.initial, inflight := [], source := none }

/-- What can happen to the screen. -/
inductive Event where
  | pick (permission : Except JSError JSString) (launch : Except JSError PickerResult)
  | trigger
  | complete (index : Nat) (outcome : PostOutcome)
  | reset

/-- The "Get Prediction" button is rendered when `selectedImage` is truthy
and is `disabled={isLoading}`. -/
def triggerEnabled (s : State) : Bool :=
  truthy s.selectedImage && !s.isLoading

/-- The "Delete Image" button is rendered when
`(selectedImage || prediction) && !isLoading`. -/
def resetEnabled (s : State) : Bool :=
  (truthy s.selectedImage || s.prediction.truthy) && !s.isLoading

/-- The `onPress` of the "Delete Image" button. -/
def resetCalls : List Effect :=
  [.setSelectedImage none, .setPrediction .null]

/-- One event; `none` when the event cannot happen in this screen.  The
"Select" button carries no `disabled` attribute. -/
def step (API_URL : Option JSString) (sc : Screen) : Event → Option Screen
  | .pick permission launch =>
    some { sc with state := sc.state.run (pickImage permission launch) }
  | .trigger =>
    if triggerEnabled sc.state then
      some { state := sc.state.run (uploadStart API_URL sc.state).1
             inflight := sc.inflight ++ (uploadStart API_URL sc.state).2.toList
             source := sc.source }
    else none
  | .complete index outcome =>
    match sc.inflight.get? index with
    | none => none
    | some request =>
      some { state := sc.state.run (uploadFinish outcome)
             inflight := sc.inflight.eraseIdx index
             source :=
               match outcome with
               | .resolved _ => some request.file.uri
               | .rejected _ => sc.source }
  | .reset =>
    if resetEnabled sc.state then
      some { sc with state := sc.state.run resetCalls }
    else none

/-- A run of events from a screen. -/
def runEvents (API_URL : Option JSString) (sc : Screen) : List Event → Option Screen
  | [] => some sc
  | e :: es => (step API_URL sc e).bind fun next => runEvents API_URL next es

/-- The screens the user and the network can bring about from mount. -/
inductive Reachable (API_URL : Option JSString) : Screen → Prop
  | initial : Reachable API_URL Screen.initial
  | next (sc : Screen) (e : Event) (sc2 : Screen) :
      Reachable API_URL sc → step API_URL sc e = some sc2 → Reachable API_URL sc2

/-! ## Notions of the specification and sample data -/

/-- The answer `{ status: 'granted' }` of the permission request. -/
def granted : Except JSError JSString := .ok "granted".toList

/-- The answer of the picker when the user confirms a selection whose first
asset is `uri`. -/
def picked (uri : JSString) (others : List Asset) : Except JSError PickerResult :=
  .ok { canceled := false, assets := some ({ uri := uri } :: others) }

/-- The validation rule in the words of the specification: the text after the
last dot of the URI (the whole URI when it has no dot), lower-cased, is one of
the supported extensions. -/
def ExtensionAccepted (uri : JSString) : Prop :=
  (∃ pre ext, uri = pre ++ '.' :: ext ∧ '.' ∉ ext ∧ toLowerCase ext ∈ validFormats) ∨
    ('.' ∉ uri ∧ toLowerCase uri ∈ validFormats)

/-- The string `ext` spells `word` with each letter in either case. -/
def CaseSpelling (word ext : JSString) : Prop :=
  List.Forall₂ (fun a b => b = a ∨ b = a.toUpper) word ext

/-- Consistency of a screen: the number of outstanding requests is told by
`isLoading`, and a request is outstanding only for a selected image and a
configured endpoint. -/
def Screen.Consistent (API_URL : Option JSString) (sc : Screen) : Prop :=
  sc.inflight.length = (if sc.state.isLoading then 1 else 0) ∧
    (sc.state.isLoading = true →
      truthy sc.state.selectedImage = true ∧ truthy API_URL = true)

/-- The property of the prediction cell: a stored prediction belongs to the
image that is selected now. -/
def Screen.PredictionOfSelected (sc : Screen) : Prop :=
  sc.state.prediction ≠ .null →
    sc.state.selectedImage ≠ none ∧ sc.source = sc.state.selectedImage

/-- A sample endpoint. -/
def sampleUrl : JSString := "http://192.168.1.10:8000/predict".toList

/-- A sample picked image. -/
def leafA : JSString := "file:///cache/ImagePicker/leafA.jpg".toList

/-- A second sample picked image. -/
def leafB : JSString := "file:///cache/ImagePicker/leafB.PNG".toList

/-- The response body `{ class: "Late_Blight", confidence: 0.93 }`. -/
def lateBlight : JSValue :=
  .obj [("class".toList, .str "Late_Blight".toList), ("confidence".toList, .num 93 2)]

/-- An error that carries a response with status 500 (and the request). -/
def serverError500 : JSError :=
  { response := some 500, request := true, message := "Request failed with status code 500".toList }

/-- A timeout: the request was sent, no response was received. -/
def timeoutError : JSError :=
  { response := none, request := true, message := "timeout of 15000ms exceeded".toList }

/-- The screen after picking `leafA` and pressing "Get Prediction". -/
def predictingScreen : Screen :=
  { state := { selectedImage := some leafA, prediction := .null, isLoading := true }
    inflight := [buildRequest sampleUrl leafA]
    source := none }

/-- The screen after picking `leafA` and a successful prediction. -/
def resultedScreen : Screen :=
  { state := { selectedImage := some leafA, prediction := lateBlight, isLoading := false }
    inflight := []
    source := some leafA }

/-- The screen after picking `leafA`, pressing "Get Prediction", picking
`leafB` while the request is outstanding, and the response for `leafA`. -/
def staleScreen : Screen :=
  { state := { selectedImage := some leafB, prediction := lateBlight, isLoading := false }
    inflight := []
    source := some leafA }

/-! ## Lemmas on the string primitives -/

theorem split_cons_sep (sep : Char) (cs : JSString) :
    split sep (sep :: cs) = [] :: split sep cs := by
  simp [split]

theorem split_ne_nil (sep : Char) (s : JSString) : split sep s ≠ [] := by
  induction s with
  | nil => simp [split]
  | cons c cs ih =>
    obtain ⟨x, xs, hx⟩ := List.exists_cons_of_ne_nil ih
    by_cases hc : c = sep <;> simp [split, hc, hx]

theorem split_cons_other (sep c : Char) (cs : JSString) (hc : c ≠ sep) :
    ∃ x xs, split sep cs = x :: xs ∧ split sep (c :: cs) = (c :: x) :: xs := by
  obtain ⟨x, xs, hx⟩ := List.exists_cons_of_ne_nil (split_ne_nil sep cs)
  exact ⟨x, xs, hx, by simp [split, hc, hx]⟩

theorem split_of_not_mem (sep : Char) (s : JSString) (h : sep ∉ s) :
    split sep s = [s] := by
  induction s with
  | nil => simp [split]
  | cons c cs ih =>
    have hc : c ≠ sep := fun e => h (by simp [e])
    have hcs : sep ∉ cs := fun m => h (by simp [m])
    simp [split, hc, ih hcs]

theorem split_two_of_mem (sep : Char) (s : JSString) (h : sep ∈ s) :
    ∃ x y ys, split sep s = x :: y :: ys := by
  induction s with
  | nil => simp at h
  | cons c cs ih =>
    by_cases hc : c = sep
    · subst hc
      obtain ⟨y, ys, hy⟩ := List.exists_cons_of_ne_nil (split_ne_nil c cs)
      exact ⟨[], y, ys, by rw [split_cons_sep, hy]⟩
    · have hm : sep ∈ cs := by
        rcases List.mem_cons.1 h with e | m
        · exact absurd e.symm hc
        · exact m
      obtain ⟨x, y, ys, hx⟩ := ih hm
      obtain ⟨x2, xs2, h1, h2⟩ := split_cons_other sep c cs hc
      rw [hx] at h1
      cases h1
      exact ⟨c :: x, y, ys, h2⟩

theorem pop_split_cons_of_mem (sep c : Char) (cs : JSString) (h : sep ∈ cs) :
    pop (split sep (c :: cs)) = pop (split sep cs) := by
  obtain ⟨x, y, ys, hx⟩ := split_two_of_mem sep cs h
  by_cases hc : c = sep
  · subst hc
    rw [split_cons_sep, hx]
    simp [pop]
  · obtain ⟨x2, xs2, h1, h2⟩ := split_cons_other sep c cs hc
    rw [h2, h1]
    rw [hx] at h1
    cases h1
    simp [pop]

theorem pop_split_append (sep : Char) (pre ext : JSString) (h : sep ∉ ext) :
    pop (split sep (pre ++ sep :: ext)) = some ext := by
  induction pre with
  | nil =>
    simp [split, pop, split_of_not_mem sep ext h]
  | cons c cs ih =>
    rw [List.cons_append, pop_split_cons_of_mem sep c _ (by simp)]
    exact ih

theorem pop_split_of_not_mem (sep : Char) (s : JSString) (h : sep ∉ s) :
    pop (split sep s) = some s := by
  simp [pop, split_of_not_mem sep s h]

/-- Every string is cut by its last separator. -/
theorem last_sep_cases (sep : Char) (s : JSString) :
    sep ∉ s ∨ ∃ pre ext, s = pre ++ sep :: ext ∧ sep ∉ ext := by
  induction s with
  | nil => simp
  | cons c cs ih =>
    rcases ih with h | ⟨pre, ext, h, hn⟩
    · by_cases hc : c = sep
      · exact Or.inr ⟨[], cs, by simp [hc], h⟩
      · left
        simp only [List.mem_cons, not_or]
        exact ⟨fun e => hc e.symm, h⟩
    · exact Or.inr ⟨c :: pre, ext, by simp [h], hn⟩

theorem upper_of_range (c : Char) (hu : c.toNat ≥ 65 ∧ c.toNat ≤ 90) : c.isUpper = true := by
  simp only [Char.isUpper, Char.toNat, UInt32.toNat] at *
  simp only [Bool.and_eq_true, decide_eq_true_eq, ge_iff_le, UInt32.le_def, Fin.le_def]
  exact hu

theorem ne_of_toNat (c d : Char) (h : c.toNat ≠ d.toNat) : c ≠ d := fun e => h (by rw [e])

/-- A character whose lower-casing is a lower-case letter is a letter. -/
theorem lower_good (c : Char) (h : (Char.toLower c).isLower = true) :
    isWordChar c = true ∧ c ≠ '.' ∧ c ≠ '/' := by
  unfold Char.toLower at h
  simp only at h
  split at h
  · rename_i hu
    refine ⟨?_, ?_, ?_⟩
    · simp [isWordChar, Char.isAlphanum, Char.isAlpha, upper_of_range c hu]
    · apply ne_of_toNat
      have : ('.' : Char).toNat = 46 := by decide
      omega
    · apply ne_of_toNat
      have : ('/' : Char).toNat = 47 := by decide
      omega
  · refine ⟨?_, ?_, ?_⟩
    · simp [isWordChar, Char.isAlphanum, Char.isAlpha, h]
    · rintro rfl
      exact absurd h (by decide)
    · rintro rfl
      exact absurd h (by decide)

theorem includes_iff (e : JSString) :
    includes validFormats (some e) = true ↔ e ∈ validFormats := by
  simp [includes]

theorem formats_letters (ext : JSString) (h : toLowerCase ext ∈ validFormats) :
    ext ≠ [] ∧ ∀ c ∈ ext, isWordChar c = true ∧ c ≠ '.' ∧ c ≠ '/' := by
  have hw : ∀ w ∈ validFormats, w ≠ [] ∧ ∀ d ∈ w, d.isLower = true := by decide
  obtain ⟨hne, hl⟩ := hw _ h
  constructor
  · rintro rfl
    exact hne rfl
  · intro c hc
    exact lower_good c (hl _ (List.mem_map_of_mem _ hc))

theorem matchHere_of_ne (c : Char) (cs : JSString) (h : c ≠ '.') :
    matchHere (c :: cs) = none := by
  unfold matchHere
  split
  · rename_i heq
    cases heq
    exact absurd rfl h
  · rfl

theorem regexExec_of_not_mem (s : JSString) (h : '.' ∉ s) : regexExec s = none := by
  induction s with
  | nil => rfl
  | cons c cs ih =>
    have hc : c ≠ '.' := fun e => h (by simp [e])
    have hcs : '.' ∉ cs := fun m => h (by simp [m])
    simp [regexExec, matchHere_of_ne c cs hc, ih hcs]

theorem regexExec_append (p ext : JSString) (hne : ext ≠ [])
    (hw : ∀ c ∈ ext, isWordChar c = true) :
    regexExec (p ++ '.' :: ext) = some ext := by
  induction p with
  | nil =>
    have : ext.all isWordChar = true := by simpa using hw
    cases ext with
    | nil => exact absurd rfl hne
    | cons a as => simp [regexExec, matchHere, this]
  | cons c cs ih =>
    have hm : matchHere (c :: (cs ++ '.' :: ext)) = none := by
      by_cases hc : c = '.'
      · subst hc
        have : (cs ++ '.' :: ext).all isWordChar = false := by
          simp only [List.all_eq_false]
          exact ⟨'.', by simp, by decide⟩
        simp [matchHere, this]
      · exact matchHere_of_ne c _ hc
    simp [regexExec, hm, ih]

/-- The text after the last dot of an accepted URI survives in its file name. -/
theorem filename_of_dot (pre ext : JSString) (hs : '/' ∉ ext) :
    ∃ p, pop (split '/' (pre ++ '.' :: ext)) = some (p ++ '.' :: ext) ∧
      '/' ∉ p ++ '.' :: ext ∧
      (pre ++ '.' :: ext = p ++ '.' :: ext ∨
        ∃ dir, pre ++ '.' :: ext = dir ++ '/' :: (p ++ '.' :: ext)) := by
  have hdot : ('/' : Char) ≠ '.' := by decide
  rcases last_sep_cases '/' pre with h | ⟨dir, p, h, hn⟩
  · have hno : '/' ∉ pre ++ '.' :: ext := by
      simp only [List.mem_append, List.mem_cons, not_or]
      exact ⟨h, hdot, hs⟩
    exact ⟨pre, pop_split_of_not_mem '/' _ hno, hno, Or.inl rfl⟩
  · have hno : '/' ∉ p ++ '.' :: ext := by
      simp only [List.mem_append, List.mem_cons, not_or]
      exact ⟨hn, hdot, hs⟩
    have he : pre ++ '.' :: ext = dir ++ '/' :: (p ++ '.' :: ext) := by
      rw [h]; simp
    exact ⟨p, by rw [he]; exact pop_split_append '/' dir _ hno, hno, Or.inr ⟨dir, he⟩⟩

theorem truthy_some_of_ne (s : JSString) (h : s ≠ []) : truthy (some s) = true := by
  cases s with
  | nil => exact absurd rfl h
  | cons a as => rfl

theorem buildPart_of_dot (pre ext : JSString)
    (hv : toLowerCase ext ∈ validFormats) :
    ∃ p, (buildPart (pre ++ '.' :: ext)) =
      { uri := pre ++ '.' :: ext, type := "image/".toList ++ ext, name := p ++ '.' :: ext } ∧
      '/' ∉ p ++ '.' :: ext ∧
      (pre ++ '.' :: ext = p ++ '.' :: ext ∨
        ∃ dir, pre ++ '.' :: ext = dir ++ '/' :: (p ++ '.' :: ext)) := by
  obtain ⟨hne, hl⟩ := formats_letters ext hv
  obtain ⟨p, hp, hno, hcut⟩ := filename_of_dot pre ext (fun m => (hl _ m).2.2 rfl)
  refine ⟨p, ?_, hno, hcut⟩
  have hre := regexExec_append p ext hne (fun c hc => (hl c hc).1)
  have ht : truthy (some (p ++ '.' :: ext)) = true := truthy_some_of_ne _ (by simp)
  simp [buildPart, hp, hre, ht]

theorem buildPart_of_no_dot (uri : JSString) (hd : '.' ∉ uri)
    (hv : toLowerCase uri ∈ validFormats) :
    buildPart uri = { uri := uri, type := "image/jpeg".toList, name := uri } ∧ '/' ∉ uri := by
  obtain ⟨hne, hl⟩ := formats_letters uri hv
  have hs : '/' ∉ uri := fun m => (hl _ m).2.2 rfl
  have ht : truthy (some uri) = true := truthy_some_of_ne _ hne
  refine ⟨?_, hs⟩
  simp [buildPart, pop_split_of_not_mem '/' uri hs, regexExec_of_not_mem uri hd, ht]

/-- What the validation of `pickImage` computes, in terms of the last dot. -/
theorem includes_extension_iff (uri : JSString) :
    includes validFormats (extension uri) = true ↔
      ((∃ pre ext, uri = pre ++ '.' :: ext ∧ '.' ∉ ext ∧ toLowerCase ext ∈ validFormats) ∨
        ('.' ∉ uri ∧ toLowerCase uri ∈ validFormats)) := by
  constructor
  · intro h
    rcases last_sep_cases '.' uri with hn | ⟨pre, ext, he, hn⟩
    · right
      refine ⟨hn, ?_⟩
      rw [extension, pop_split_of_not_mem '.' uri hn] at h
      exact (includes_iff _).1 h
    · left
      refine ⟨pre, ext, he, hn, ?_⟩
      rw [extension, he, pop_split_append '.' pre ext hn] at h
      exact (includes_iff _).1 h
  · rintro (⟨pre, ext, he, hn, hv⟩ | ⟨hn, hv⟩)
    · rw [extension, he, pop_split_append '.' pre ext hn]
      exact (includes_iff _).2 hv
    · rw [extension, pop_split_of_not_mem '.' uri hn]
      exact (includes_iff _).2 hv

/-! ## Lemmas on the handlers -/

theorem truthy_iff (x : Option JSString) :
    truthy x = true ↔ ∃ c cs, x = some (c :: cs) := by
  cases x with
  | none => simp [truthy]
  | some s =>
    cases s with
    | nil => simp [truthy]
    | cons a as => simp [truthy]

theorem uploadStart_of_truthy (API_URL : Option JSString) (s : State)
    (hi : truthy s.selectedImage = true) (hu : truthy API_URL = true) :
    ∃ url uri, API_URL = some url ∧ s.selectedImage = some uri ∧
      uploadStart API_URL s =
        ([.setIsLoading true, .post (buildRequest url uri)], some (buildRequest url uri)) := by
  obtain ⟨c, cs, hc⟩ := (truthy_iff _).1 hi
  obtain ⟨u, us, hus⟩ := (truthy_iff _).1 hu
  exact ⟨u :: us, c :: cs, hus, hc, by simp [uploadStart, hc, hus]⟩

theorem uploadStart_of_falsy (API_URL : Option JSString) (s : State)
    (h : truthy s.selectedImage = false ∨ truthy API_URL = false) :
    uploadStart API_URL s = ([noImageAlert], none) ∨
      uploadStart API_URL s = ([configErrorAlert], none) := by
  unfold uploadStart
  split
  · exact Or.inl rfl
  · exact Or.inl rfl
  · rename_i c cs hc
    split
    · exact Or.inr rfl
    · exact Or.inr rfl
    · rename_i u us
      rcases h with h | h
      · simp [hc, truthy] at h
      · simp [truthy] at h

theorem pick_accepted (uri : JSString) (others : List Asset)
    (h : includes validFormats (extension uri) = true) :
    pickImage granted (picked uri others) =
      [.setSelectedImage (some uri), .setPrediction .null] := by
  simp [pickImage, granted, picked, h]

theorem pick_rejected (uri : JSString) (others : List Asset)
    (h : includes validFormats (extension uri) = false) :
    pickImage granted (picked uri others) = [invalidFormatAlert] := by
  simp [pickImage, granted, picked, h]

theorem accepted_ne_nil (uri : JSString)
    (h : includes validFormats (extension uri) = true) : uri ≠ [] := by
  rintro rfl
  exact absurd h (by decide)

/-- The shapes of a trace of `pickImage`. -/
theorem pickImage_cases (permission : Except JSError JSString)
    (launch : Except JSError PickerResult) :
    (∃ title message, pickImage permission launch = [.alert title message]) ∨
      pickImage permission launch = [] ∨
      ∃ uri, includes validFormats (extension uri) = true ∧
        pickImage permission launch = [.setSelectedImage (some uri), .setPrediction .null] := by
  unfold pickImage
  split
  · exact Or.inl ⟨_, _, rfl⟩
  · split
    · exact Or.inl ⟨_, _, rfl⟩
    · split
      · exact Or.inl ⟨_, _, rfl⟩
      · split
        · rename_i asset _ _ _
          by_cases hv : includes validFormats (extension asset.uri) = true
          · exact Or.inr (Or.inr ⟨asset.uri, hv, by simp [hv]⟩)
          · simp only [Bool.not_eq_true] at hv
            exact Or.inl ⟨_, _, by simp [hv]; rfl⟩
        · exact Or.inr (Or.inl rfl)

theorem spelling_lower (word ext : JSString) (hw : word ∈ validFormats)
    (hs : CaseSpelling word ext) : toLowerCase ext = word ∧ '.' ∉ ext := by
  simp only [validFormats, List.mem_cons, List.mem_singleton, List.not_mem_nil, or_false] at hw
  rcases hw with rfl | rfl | rfl
  all_goals
    simp only [CaseSpelling, String.toList, List.forall₂_cons_left_iff,
      List.forall₂_nil_left_iff] at hs
  · obtain ⟨a, _, h1, ⟨b, _, h2, ⟨c, _, h3, rfl, rfl⟩, rfl⟩, rfl⟩ := hs
    rcases h1 with rfl | rfl <;> rcases h2 with rfl | rfl <;> rcases h3 with rfl | rfl <;> decide
  · obtain ⟨a, _, h1, ⟨b, _, h2, ⟨c, _, h3, ⟨d, _, h4, rfl, rfl⟩, rfl⟩, rfl⟩, rfl⟩ := hs
    rcases h1 with rfl | rfl <;> rcases h2 with rfl | rfl <;> rcases h3 with rfl | rfl <;>
      rcases h4 with rfl | rfl <;> decide
  · obtain ⟨a, _, h1, ⟨b, _, h2, ⟨c, _, h3, rfl, rfl⟩, rfl⟩, rfl⟩ := hs
    rcases h1 with rfl | rfl <;> rcases h2 with rfl | rfl <;> rcases h3 with rfl | rfl <;> decide

theorem pickImage_cases_accept (uri : JSString) (others : List Asset) :
    pickImage granted (picked uri others) =
        [.setSelectedImage (some uri), .setPrediction .null] ↔ ExtensionAccepted uri := by
  constructor
  · intro h
    by_cases hv : includes validFormats (extension uri) = true
    · exact (includes_extension_iff uri).1 hv
    · simp only [Bool.not_eq_true] at hv
      rw [pick_rejected uri others hv] at h
      simp [invalidFormatAlert] at h
  · intro h
    exact pick_accepted uri others ((includes_extension_iff uri).2 h)

/-! ## Lemmas on the screen -/

theorem reachable_of_runEvents (API_URL : Option JSString) (es : List Event) :
    ∀ sc sc2, Reachable API_URL sc → runEvents API_URL sc es = some sc2 →
      Reachable API_URL sc2 := by
  induction es with
  | nil =>
    intro sc sc2 hr h
    simp only [runEvents, Option.some.injEq] at h
    rw [← h]; exact hr
  | cons e es ih =>
    intro sc sc2 hr h
    simp only [runEvents] at h
    cases hs : step API_URL sc e with
    | none => rw [hs] at h; simp at h
    | some mid =>
      rw [hs] at h
      exact ih mid sc2 (Reachable.next sc e mid hr hs) h

theorem run_uploadFinish (s : State) (outcome : PostOutcome) :
    (s.run (uploadFinish outcome)).isLoading = false ∧
      (s.run (uploadFinish outcome)).selectedImage = s.selectedImage := by
  cases outcome <;> exact ⟨rfl, rfl⟩

theorem run_pickImage (s : State) (permission : Except JSError JSString)
    (launch : Except JSError PickerResult) :
    (s.run (pickImage permission launch)).isLoading = s.isLoading ∧
      (truthy s.selectedImage = true →
        truthy (s.run (pickImage permission launch)).selectedImage = true) := by
  rcases pickImage_cases permission launch with ⟨t, m, h⟩ | h | ⟨uri, hv, h⟩
  · rw [h]; exact ⟨rfl, fun x => x⟩
  · rw [h]; exact ⟨rfl, fun x => x⟩
  · rw [h]
    exact ⟨rfl, fun _ => truthy_some_of_ne uri (accepted_ne_nil uri hv)⟩

/-- Every reachable screen is consistent. -/
theorem reachable_consistent (API_URL : Option JSString) (sc : Screen)
    (h : Reachable API_URL sc) : sc.Consistent API_URL := by
  induction h with
  | initial => simp [Screen.Consistent, Screen.initial, State.initial]
  | next sc e sc2 _ hstep ih =>
    obtain ⟨hlen, himg⟩ := ih
    cases e with
    | pick permission launch =>
      simp only [step, Option.some.injEq] at hstep
      subst hstep
      obtain ⟨h1, h2⟩ := run_pickImage sc.state permission launch
      refine ⟨?_, ?_⟩
      · simp only [h1]; exact hlen
      · intro hl
        simp only [h1] at hl
        exact ⟨h2 (himg hl).1, (himg hl).2⟩
    | trigger =>
      simp only [step] at hstep
      split at hstep
      · rename_i hen
        simp only [Option.some.injEq] at hstep
        subst hstep
        simp only [triggerEnabled, Bool.and_eq_true, Bool.not_eq_true'] at hen
        obtain ⟨hi, hl⟩ := hen
        have hnil : sc.inflight = [] := by
          rw [hl] at hlen
          exact List.length_eq_zero.1 (by simpa using hlen)
        by_cases hu : truthy API_URL = true
        · obtain ⟨url, uri, _, _, hst⟩ := uploadStart_of_truthy API_URL sc.state hi hu
          simp only [hst, hnil]
          exact ⟨rfl, fun _ => ⟨hi, hu⟩⟩
        · simp only [Bool.not_eq_true] at hu
          rcases uploadStart_of_falsy API_URL sc.state (Or.inr hu) with hst | hst
          · simp only [hst, hnil]
            refine ⟨?_, ?_⟩
            · show 0 = if sc.state.isLoading = true then 1 else 0
              simp [hl]
            · intro h
              change sc.state.isLoading = true at h
              rw [hl] at h; cases h
          · simp only [hst, hnil]
            refine ⟨?_, ?_⟩
            · show 0 = if sc.state.isLoading = true then 1 else 0
              simp [hl]
            · intro h
              change sc.state.isLoading = true at h
              rw [hl] at h; cases h
      · cases hstep
    | complete index outcome =>
      simp only [step] at hstep
      split at hstep
      · cases hstep
      · rename_i request hget
        simp only [Option.some.injEq] at hstep
        subst hstep
        obtain ⟨h1, _⟩ := run_uploadFinish sc.state outcome
        have hlt : index < sc.inflight.length := by
          by_contra hc
          rw [List.get?_eq_none.2 (not_lt.1 hc)] at hget
          cases hget
        have hone : sc.inflight.length = 1 := by
          cases hl : sc.state.isLoading with
          | false =>
            rw [hl] at hlen
            simp only [Bool.false_eq_true, if_false] at hlen
            omega
          | true => rw [hl] at hlen; simpa using hlen
        refine ⟨?_, ?_⟩
        · simp only [h1]
          rw [List.length_eraseIdx, if_pos hlt, hone]
          rfl
        · intro hl
          simp only [h1] at hl
          cases hl
    | reset =>
      simp only [step] at hstep
      split at hstep
      · rename_i hen
        simp only [Option.some.injEq] at hstep
        subst hstep
        simp only [resetEnabled, Bool.and_eq_true, Bool.not_eq_true'] at hen
        have hl : (sc.state.run resetCalls).isLoading = sc.state.isLoading := rfl
        refine ⟨?_, ?_⟩
        · simp only [hl]; exact hlen
        · intro h
          simp only [hl] at h
          rw [hen.2] at h; cases h
      · cases hstep

/-- In every reachable screen a stored prediction comes with a selected image. -/
theorem reachable_prediction_has_image (API_URL : Option JSString) (sc : Screen)
    (h : Reachable API_URL sc) :
    sc.state.prediction ≠ .null → truthy sc.state.selectedImage = true := by
  induction h with
  | initial =>
    intro hp
    exact absurd rfl hp
  | next sc e sc2 hr hstep ih =>
    cases e with
    | pick permission launch =>
      simp only [step, Option.some.injEq] at hstep
      subst hstep
      rcases pickImage_cases permission launch with ⟨t, m, hc⟩ | hc | ⟨uri, hv, hc⟩
      · simp only [hc]; exact ih
      · simp only [hc]; exact ih
      · simp only [hc]
        intro hp
        exact absurd rfl hp
    | trigger =>
      simp only [step] at hstep
      split at hstep
      · rename_i hen
        simp only [Option.some.injEq] at hstep
        subst hstep
        simp only [triggerEnabled, Bool.and_eq_true, Bool.not_eq_true'] at hen
        intro _
        by_cases hu : truthy API_URL = true
        · obtain ⟨url, uri, _, _, hst⟩ := uploadStart_of_truthy API_URL sc.state hen.1 hu
          simp only [hst]
          exact hen.1
        · simp only [Bool.not_eq_true] at hu
          rcases uploadStart_of_falsy API_URL sc.state (Or.inr hu) with hst | hst
          · simp only [hst]; exact hen.1
          · simp only [hst]; exact hen.1
      · cases hstep
    | complete index outcome =>
      simp only [step] at hstep
      split at hstep
      · cases hstep
      · rename_i request hget
        simp only [Option.some.injEq] at hstep
        subst hstep
        obtain ⟨hlen, himg⟩ := reachable_consistent API_URL sc hr
        have hl : sc.state.isLoading = true := by
          cases hl : sc.state.isLoading with
          | true => rfl
          | false =>
            rw [hl] at hlen
            have hnil : sc.inflight = [] := List.length_eq_zero.1 (by simpa using hlen)
            rw [hnil] at hget
            cases hget
        intro _
        simp only [(run_uploadFinish sc.state outcome).2]
        exact (himg hl).1
    | reset =>
      simp only [step] at hstep
      split at hstep
      · simp only [Option.some.injEq] at hstep
        subst hstep
        intro hp
        exact absurd rfl hp
      · cases hstep

/-! ## Image acquisition -/

/-- C1. Extension validation of `pickImage`: a granted, confirmed pick of
`uri` is accepted (the trace is `setSelectedImage(uri)`, `setPrediction(null)`)
if and only if the text after the last dot of `uri` (all of `uri` when it has
no dot), lower-cased, is `jpg`, `jpeg` or `png`; every URI that ends in a dot
followed by an upper/lower-case spelling of one of the three is accepted; and
for every other URI the trace is the Invalid Format notice alone, so that no
setter is called and the cells are left as they were. -/
theorem pickImage_extension_validation (uri : JSString) (others : List Asset) :
    (pickImage granted (picked uri others) =
        [.setSelectedImage (some uri), .setPrediction .null] ↔ ExtensionAccepted uri) ∧
    (∀ pre word ext, word ∈ validFormats → CaseSpelling word ext →
        uri = pre ++ '.' :: ext →
        pickImage granted (picked uri others) =
          [.setSelectedImage (some uri), .setPrediction .null]) ∧
    (¬ ExtensionAccepted uri →
        pickImage granted (picked uri others) = [invalidFormatAlert] ∧
        ∀ s : State, s.run (pickImage granted (picked uri others)) = s) := by
  refine ⟨pickImage_cases_accept uri others, ?_, ?_⟩
  · intro pre word ext hw hs he
    obtain ⟨hl, hd⟩ := spelling_lower word ext hw hs
    exact pick_accepted uri others
      ((includes_extension_iff uri).2 (Or.inl ⟨pre, ext, he, hd, by rw [hl]; exact hw⟩))
  · intro h
    have hv : includes validFormats (extension uri) = false := by
      by_contra hc
      simp only [Bool.not_eq_false] at hc
      exact h ((includes_extension_iff uri).1 hc)
    rw [pick_rejected uri others hv]
    exact ⟨rfl, fun s => rfl⟩

/-- C1 at `leafB`, whose extension is written `PNG`, and at a `.gif`. -/
theorem pickImage_extension_validation_witness :
    pickImage granted (picked leafB []) =
        [.setSelectedImage (some leafB), .setPrediction .null] ∧
      pickImage granted (picked "file:///cache/anim.gif".toList []) = [invalidFormatAlert] :=
  ⟨(pickImage_extension_validation leafB []).2.1
      "file:///cache/ImagePicker/leafB".toList "png".toList "PNG".toList
      (by decide)
      (List.Forall₂.cons (Or.inr (by decide))
        (List.Forall₂.cons (Or.inr (by decide))
          (List.Forall₂.cons (Or.inr (by decide)) List.Forall₂.nil)))
      (by decide),
    ((pickImage_extension_validation "file:///cache/anim.gif".toList []).2.2
      (fun h => absurd ((includes_extension_iff _).2 h) (by decide))).1⟩

/-- C6. A successful pick clears the prediction: for every prior state and
every granted, confirmed pick of a URI that passes the validation, afterwards
`selectedImage` is the picked URI, `prediction` is `null` and `isLoading` is
what it was; the same pick applied twice gives the state of applying it once. -/
theorem pickImage_clears_prediction (s : State) (uri : JSString) (others : List Asset)
    (h : ExtensionAccepted uri) :
    s.run (pickImage granted (picked uri others)) =
        { selectedImage := some uri, prediction := .null, isLoading := s.isLoading } ∧
      (s.run (pickImage granted (picked uri others))).run
          (pickImage granted (picked uri others)) =
        s.run (pickImage granted (picked uri others)) := by
  rw [pick_accepted uri others ((includes_extension_iff uri).2 h)]
  exact ⟨rfl, rfl⟩

/-- C6 at the screen that shows a result for `leafA`, picking `leafB`. -/
theorem pickImage_clears_prediction_witness :
    resultedScreen.state.run (pickImage granted (picked leafB [])) =
      { selectedImage := some leafB, prediction := .null, isLoading := false } :=
  (pickImage_clears_prediction resultedScreen.state leafB []
    (Or.inl ⟨"file:///cache/ImagePicker/leafB".toList, "PNG".toList,
      by decide, by decide, by decide⟩)).1

/-! ## Upload client -/

/-- C3. When the image reference is missing (`null` or empty) or the endpoint
is not configured (`undefined` or empty), `uploadImage` only shows one notice:
`axios.post` is not called, the in-flight flag is never set, no request is left
outstanding and the three cells are unchanged. -/
theorem uploadImage_short_circuit (API_URL : Option JSString) (s : State)
    (outcome : PostOutcome)
    (h : truthy s.selectedImage = false ∨ truthy API_URL = false) :
    (uploadImage API_URL s outcome = [noImageAlert] ∨
        uploadImage API_URL s outcome = [configErrorAlert]) ∧
      (truthy s.selectedImage = true → uploadImage API_URL s outcome = [configErrorAlert]) ∧
      (∀ request, Effect.post request ∉ uploadImage API_URL s outcome) ∧
      (∀ b, Effect.setIsLoading b ∉ uploadImage API_URL s outcome) ∧
      (uploadStart API_URL s).2 = none ∧
      s.run (uploadImage API_URL s outcome) = s := by
  have hc : truthy s.selectedImage = true → uploadStart API_URL s = ([configErrorAlert], none) := by
    intro hi
    obtain ⟨c, cs, hs⟩ := (truthy_iff _).1 hi
    rcases h with h | h
    · rw [hi] at h; cases h
    · unfold uploadStart
      rw [hs]
      cases API_URL with
      | none => rfl
      | some u =>
        cases u with
        | nil => rfl
        | cons a as => simp [truthy] at h
  rcases uploadStart_of_falsy API_URL s h with h1 | h1
  · have hu : uploadImage API_URL s outcome = [noImageAlert] := by simp [uploadImage, h1]
    refine ⟨Or.inl hu, ?_, ?_, ?_, ?_, ?_⟩
    · intro hi
      rw [hc hi] at h1
      simp [noImageAlert, configErrorAlert] at h1
    · intro request; rw [hu]; simp [noImageAlert]
    · intro b; rw [hu]; simp [noImageAlert]
    · rw [h1]
    · rw [hu]; rfl
  · have hu : uploadImage API_URL s outcome = [configErrorAlert] := by simp [uploadImage, h1]
    refine ⟨Or.inr hu, fun _ => hu, ?_, ?_, ?_, ?_⟩
    · intro request; rw [hu]; simp [configErrorAlert]
    · intro b; rw [hu]; simp [configErrorAlert]
    · rw [h1]
    · rw [hu]; rfl

/-- C3 with `leafA` selected and no endpoint configured. -/
theorem uploadImage_short_circuit_witness :
    uploadImage none resultedScreen.state (.resolved lateBlight) = [configErrorAlert] :=
  (uploadImage_short_circuit none resultedScreen.state (.resolved lateBlight)
    (Or.inr rfl)).2.1 rfl

/-- C4. Classification of a failed POST: the `catch` block shows exactly one
notice, titled Prediction Failed, and then releases the flag.  Its text is
`Server error: <status>` whenever the error carries a response (whether or not
it carries a request), the fixed No-response text when it carries a request
and no response, and the error's own message otherwise; the three cases
exclude each other and cover every error. -/
theorem uploadImage_error_classification (error : JSError) :
    uploadFinish (.rejected error) =
        [.alert "Prediction Failed ❌".toList (errorMessage error), .setIsLoading false] ∧
      (∀ status, error.response = some status →
        errorMessage error = "Server error: ".toList ++ (toString status).toList) ∧
      (error.response = none → error.request = true →
        errorMessage error = noResponseMessage) ∧
      (error.response = none → error.request = false →
        errorMessage error = error.message) ∧
      ((error.response ≠ none ∧ ¬ (error.response = none ∧ error.request = true) ∧
          ¬ (error.response = none ∧ error.request = false)) ∨
        (error.response = none ∧ error.request = true) ∨
        (error.response = none ∧ error.request = false)) := by
  refine ⟨rfl, ?_, ?_, ?_, ?_⟩
  · intro status h
    simp [errorMessage, h]
  · intro h1 h2
    simp [errorMessage, h1, h2]
  · intro h1 h2
    simp [errorMessage, h1, h2]
  · cases hr : error.response with
    | none => cases hq : error.request <;> simp
    | some st => simp

/-- C4 at an error with status 500 that also carries the request, and at a timeout. -/
theorem uploadImage_error_classification_witness :
    errorMessage serverError500 = "Server error: 500".toList ∧
      errorMessage timeoutError = noResponseMessage :=
  ⟨(uploadImage_error_classification serverError500).2.1 500 rfl,
    (uploadImage_error_classification timeoutError).2.2.1 rfl rfl⟩

/-- C8. A successful response is stored verbatim: when an image is selected
and the endpoint is configured, after `uploadImage` with a resolved POST the
`prediction` cell is the response body itself, `selectedImage` is unchanged
and `isLoading` is `false`; the body is passed to `setPrediction` as received. -/
theorem uploadImage_stores_body (API_URL : Option JSString) (s : State) (data : JSValue)
    (hi : truthy s.selectedImage = true) (hu : truthy API_URL = true) :
    s.run (uploadImage API_URL s (.resolved data)) =
        { selectedImage := s.selectedImage, prediction := data, isLoading := false } ∧
      ∃ request, uploadImage API_URL s (.resolved data) =
        [.setIsLoading true, .post request, .setPrediction data, .setIsLoading false] := by
  obtain ⟨url, uri, _, _, h⟩ := uploadStart_of_truthy API_URL s hi hu
  have ht : uploadImage API_URL s (.resolved data) =
      [.setIsLoading true, .post (buildRequest url uri), .setPrediction data,
        .setIsLoading false] := by
    simp [uploadImage, h, uploadFinish]
  exact ⟨by rw [ht]; rfl, _, ht⟩

/-- C8 for the body `{ class: "Late_Blight", confidence: 0.93 }`. -/
theorem uploadImage_stores_body_witness :
    (State.run { selectedImage := some leafA, prediction := .null, isLoading := false }
      (uploadImage (some sampleUrl)
        { selectedImage := some leafA, prediction := .null, isLoading := false }
        (.resolved lateBlight))) =
      { selectedImage := some leafA, prediction := lateBlight, isLoading := false } :=
  (uploadImage_stores_body (some sampleUrl)
    { selectedImage := some leafA, prediction := .null, isLoading := false }
    lateBlight rfl rfl).1

/-- C9. The MIME type agrees with the validation of `pickImage`: for every
URI the validation accepts, `uploadImage` posts one part under the field name
`file`; its type is `image/` followed by the text after the last dot of the
URI as written when the URI has a dot, and `image/jpeg` when it has none, so
that the type lower-cased is `image/jpg`, `image/jpeg` or `image/png`; its
name is not empty and is the last slash-separated segment of the URI. -/
theorem uploadImage_mime_agrees (url uri : JSString) (others : List Asset) (s : State)
    (hurl : url ≠ []) (hs : s.selectedImage = some uri)
    (hacc : pickImage granted (picked uri others) =
      [.setSelectedImage (some uri), .setPrediction .null]) :
    ∃ request,
      uploadStart (some url) s = ([.setIsLoading true, .post request], some request) ∧
      request.field = "file".toList ∧ request.file.uri = uri ∧
      (∀ pre ext, uri = pre ++ '.' :: ext → '.' ∉ ext →
        request.file.type = "image/".toList ++ ext) ∧
      ('.' ∉ uri → request.file.type = "image/jpeg".toList) ∧
      toLowerCase request.file.type ∈
        ["image/jpg".toList, "image/jpeg".toList, "image/png".toList] ∧
      request.file.name ≠ [] ∧ '/' ∉ request.file.name ∧
      (uri = request.file.name ∨ ∃ dir, uri = dir ++ '/' :: request.file.name) := by
  have hv : ExtensionAccepted uri := (pickImage_cases_accept uri others).1 hacc
  have hne : uri ≠ [] := accepted_ne_nil uri ((includes_extension_iff uri).2 hv)
  have hst : uploadStart (some url) s =
      ([.setIsLoading true, .post (buildRequest url uri)], some (buildRequest url uri)) := by
    obtain ⟨u, us, rfl⟩ := List.exists_cons_of_ne_nil hurl
    obtain ⟨c, cs, rfl⟩ := List.exists_cons_of_ne_nil hne
    simp [uploadStart, hs]
  refine ⟨buildRequest url uri, hst, rfl, rfl, ?_⟩
  rcases hv with ⟨pre, ext, he, hd, hf⟩ | ⟨hd, hf⟩
  · obtain ⟨p, hp, hno, hcut⟩ := buildPart_of_dot pre ext hf
    rw [← he] at hp hcut
    have hty : (buildRequest url uri).file.type = "image/".toList ++ ext := by
      simp [buildRequest, hp]
    have hnm : (buildRequest url uri).file.name = p ++ '.' :: ext := by
      simp [buildRequest, hp]
    refine ⟨?_, ?_, ?_, ?_, ?_, ?_⟩
    · intro pre2 ext2 he2 hd2
      have h1 := pop_split_append '.' pre ext hd
      have h2 := pop_split_append '.' pre2 ext2 hd2
      rw [← he] at h1
      rw [← he2, h1] at h2
      cases h2
      exact hty
    · intro hn
      exact absurd (by rw [he]; simp) hn
    · rw [hty]
      simp only [validFormats, List.mem_cons, List.mem_singleton, List.not_mem_nil,
        or_false] at hf
      simp only [toLowerCase, List.map_append] at hf ⊢
      rcases hf with hf | hf | hf <;> rw [hf] <;> decide
    · rw [hnm]; simp
    · rw [hnm]; exact hno
    · rw [hnm]; exact hcut
  · obtain ⟨hp, hno⟩ := buildPart_of_no_dot uri hd hf
    have hty : (buildRequest url uri).file.type = "image/jpeg".toList := by
      simp [buildRequest, hp]
    have hnm : (buildRequest url uri).file.name = uri := by
      simp [buildRequest, hp]
    refine ⟨?_, fun _ => hty, ?_, ?_, ?_, ?_⟩
    · intro pre2 ext2 he2 _
      exact absurd (by rw [he2]; simp) hd
    · rw [hty]; decide
    · rw [hnm]; exact hne
    · rw [hnm]; exact hno
    · rw [hnm]; exact Or.inl rfl

/-- C9 at `leafB`: the type keeps the case of the extension. -/
theorem uploadImage_mime_agrees_witness :
    ∃ request,
      uploadStart (some sampleUrl)
          { selectedImage := some leafB, prediction := .null, isLoading := false } =
        ([.setIsLoading true, .post request], some request) ∧
      request.field = "file".toList ∧ request.file.uri = leafB ∧
      (∀ pre ext, leafB = pre ++ '.' :: ext → '.' ∉ ext →
        request.file.type = "image/".toList ++ ext) ∧
      ('.' ∉ leafB → request.file.type = "image/jpeg".toList) ∧
      toLowerCase request.file.type ∈
        ["image/jpg".toList, "image/jpeg".toList, "image/png".toList] ∧
      request.file.name ≠ [] ∧ '/' ∉ request.file.name ∧
      (leafB = request.file.name ∨ ∃ dir, leafB = dir ++ '/' :: request.file.name) :=
  uploadImage_mime_agrees sampleUrl leafB []
    { selectedImage := some leafB, prediction := .null, isLoading := false }
    (by decide) rfl rfl

/-! ## The in-flight flag and failed uploads -/

/-- C2. The in-flight flag: for every state in which `uploadImage` can be
called (`isLoading` is `false` at the call, or the state is one of a reachable
screen) and every outcome (missing image, missing endpoint, resolved POST,
error with a response, error with a request only, any other error),
`isLoading` is `false` when `uploadImage` finishes.  Whenever the request is
started, from any state, the flag is `false` at the end and it is `true` after
every call from `axios.post` up to the last one.  On the two guard paths the
flag is left as it was. -/
theorem uploadImage_isLoading (API_URL : Option JSString) (s : State)
    (outcome : PostOutcome) :
    (truthy s.selectedImage = true → truthy API_URL = true →
      (s.run (uploadImage API_URL s outcome)).isLoading = false ∧
      ∃ request call,
        uploadImage API_URL s outcome =
          [.setIsLoading true, .post request, call, .setIsLoading false] ∧
        ∀ k, 2 ≤ k → k < 4 →
          (s.run ((uploadImage API_URL s outcome).take k)).isLoading = true) ∧
    ((truthy s.selectedImage = false ∨ truthy API_URL = false) →
      (s.run (uploadImage API_URL s outcome)).isLoading = s.isLoading) ∧
    ((s.isLoading = false ∨ ∃ inflight source,
        Reachable API_URL { state := s, inflight := inflight, source := source }) →
      (s.run (uploadImage API_URL s outcome)).isLoading = false) := by
  have hstart : truthy s.selectedImage = true → truthy API_URL = true →
      (s.run (uploadImage API_URL s outcome)).isLoading = false ∧
      ∃ request call,
        uploadImage API_URL s outcome =
          [.setIsLoading true, .post request, call, .setIsLoading false] ∧
        ∀ k, 2 ≤ k → k < 4 →
          (s.run ((uploadImage API_URL s outcome).take k)).isLoading = true := by
    intro hi hu
    obtain ⟨url, uri, _, _, h⟩ := uploadStart_of_truthy API_URL s hi hu
    cases outcome with
    | resolved data =>
      have ht : uploadImage API_URL s (.resolved data) =
          [.setIsLoading true, .post (buildRequest url uri), .setPrediction data,
            .setIsLoading false] := by
        simp [uploadImage, h, uploadFinish]
      rw [ht]
      refine ⟨rfl, _, _, rfl, ?_⟩
      intro k h2 h4
      interval_cases k <;> rfl
    | rejected error =>
      have ht : uploadImage API_URL s (.rejected error) =
          [.setIsLoading true, .post (buildRequest url uri),
            .alert "Prediction Failed ❌".toList (errorMessage error),
            .setIsLoading false] := by
        simp [uploadImage, h, uploadFinish]
      rw [ht]
      refine ⟨rfl, _, _, rfl, ?_⟩
      intro k h2 h4
      interval_cases k <;> rfl
  have hguard : (truthy s.selectedImage = false ∨ truthy API_URL = false) →
      (s.run (uploadImage API_URL s outcome)).isLoading = s.isLoading := by
    intro h
    rcases uploadStart_of_falsy API_URL s h with h1 | h1
    · simp [uploadImage, h1, noImageAlert, State.run, State.apply]
    · simp [uploadImage, h1, configErrorAlert, State.run, State.apply]
  refine ⟨hstart, hguard, ?_⟩
  intro hcall
  have himg : s.isLoading = true →
      truthy s.selectedImage = true ∧ truthy API_URL = true := by
    intro hl
    rcases hcall with hf | ⟨inflight, source, hr⟩
    · rw [hf] at hl; cases hl
    · exact (reachable_consistent API_URL _ hr).2 hl
  by_cases hi : truthy s.selectedImage = true
  · by_cases hu : truthy API_URL = true
    · exact (hstart hi hu).1
    · simp only [Bool.not_eq_true] at hu
      rw [hguard (Or.inr hu)]
      cases hl : s.isLoading with
      | false => rfl
      | true => rw [(himg hl).2] at hu; cases hu
  · simp only [Bool.not_eq_true] at hi
    rw [hguard (Or.inl hi)]
    cases hl : s.isLoading with
    | false => rfl
    | true => rw [(himg hl).1] at hi; cases hi

/-- C2 at a timeout of the upload of `leafA`, at the screen at mount (no image)
and at the reachable screen that waits for a response. -/
theorem uploadImage_isLoading_witness :
    (State.run { selectedImage := some leafA, prediction := .null, isLoading := false }
        (uploadImage (some sampleUrl)
          { selectedImage := some leafA, prediction := .null, isLoading := false }
          (.rejected timeoutError))).isLoading = false ∧
      (State.initial.run
        (uploadImage (some sampleUrl) State.initial (.resolved lateBlight))).isLoading = false ∧
      (predictingScreen.state.run
        (uploadImage (some sampleUrl) predictingScreen.state
          (.rejected serverError500))).isLoading = false :=
  ⟨(uploadImage_isLoading (some sampleUrl)
      { selectedImage := some leafA, prediction := .null, isLoading := false }
      (.rejected timeoutError)).2.2 (Or.inl rfl),
    (uploadImage_isLoading (some sampleUrl) State.initial (.resolved lateBlight)).2.2
      (Or.inl rfl),
    (uploadImage_isLoading (some sampleUrl) predictingScreen.state
      (.rejected serverError500)).2.2
      (Or.inr ⟨predictingScreen.inflight, predictingScreen.source,
        reachable_of_runEvents (some sampleUrl)
          [.pick granted (picked leafA []), .trigger]
          Screen.initial predictingScreen Reachable.initial rfl⟩)⟩

/-- C5, amended. For every state with an image selected and the endpoint
configured, and every failed POST, after `uploadImage` the selected image is
unchanged, `isLoading` is `false` and `prediction` is what it was before the
upload; hence the state is ImageSelected (prediction `null`) whenever no
prediction was stored before the upload. -/
theorem uploadImage_failure_state (API_URL : Option JSString) (s : State) (error : JSError)
    (hi : truthy s.selectedImage = true) (hu : truthy API_URL = true) :
    s.run (uploadImage API_URL s (.rejected error)) =
        { selectedImage := s.selectedImage, prediction := s.prediction, isLoading := false } ∧
      (s.prediction = .null →
        s.run (uploadImage API_URL s (.rejected error)) =
          { selectedImage := s.selectedImage, prediction := .null, isLoading := false }) := by
  obtain ⟨url, uri, _, _, h⟩ := uploadStart_of_truthy API_URL s hi hu
  have ht : uploadImage API_URL s (.rejected error) =
      [.setIsLoading true, .post (buildRequest url uri),
        .alert "Prediction Failed ❌".toList (errorMessage error),
        .setIsLoading false] := by
    simp [uploadImage, h, uploadFinish]
  rw [ht]
  refine ⟨rfl, ?_⟩
  intro hp
  rw [← hp]
  rfl

/-- C5, amended, at a response with status 500 for the first upload of `leafA`. -/
theorem uploadImage_failure_state_witness :
    State.run { selectedImage := some leafA, prediction := .null, isLoading := false }
      (uploadImage (some sampleUrl)
        { selectedImage := some leafA, prediction := .null, isLoading := false }
        (.rejected serverError500)) =
      { selectedImage := some leafA, prediction := .null, isLoading := false } :=
  (uploadImage_failure_state (some sampleUrl)
    { selectedImage := some leafA, prediction := .null, isLoading := false }
    serverError500 rfl rfl).2 rfl

/-- C5 as stated fails: from the reachable screen that shows a result for
`leafA`, the button is enabled, and after an upload that fails with status 500
the earlier prediction is still stored. -/
theorem uploadImage_failure_state_counterexample :
    Reachable (some sampleUrl) resultedScreen ∧
      triggerEnabled resultedScreen.state = true ∧
      (resultedScreen.state.run
        (uploadImage (some sampleUrl) resultedScreen.state
          (.rejected serverError500))).prediction = lateBlight ∧
      lateBlight ≠ .null :=
  ⟨reachable_of_runEvents (some sampleUrl)
      [.pick granted (picked leafA []), .trigger, .complete 0 (.resolved lateBlight)]
      Screen.initial resultedScreen Reachable.initial rfl,
    rfl, rfl, fun h => JSValue.noConfusion h⟩

/-! ## The step relation of the screen -/

/-- C7. At most one request is in flight: a reachable screen has at most one
outstanding POST; while one is outstanding `isLoading` is `true` and the
trigger step cannot be taken; and a trigger step that is taken starts from no
outstanding request and leaves at most one. -/
theorem single_request_in_flight (API_URL : Option JSString) (sc : Screen)
    (h : Reachable API_URL sc) :
    sc.inflight.length ≤ 1 ∧
      (sc.inflight ≠ [] →
        sc.state.isLoading = true ∧ step API_URL sc .trigger = none) ∧
      (∀ sc2, step API_URL sc .trigger = some sc2 →
        sc.inflight = [] ∧ sc2.inflight.length ≤ 1) := by
  obtain ⟨hlen, _⟩ := reachable_consistent API_URL sc h
  have hload : sc.inflight ≠ [] → sc.state.isLoading = true := by
    intro hne
    cases hl : sc.state.isLoading with
    | true => rfl
    | false =>
      rw [hl] at hlen
      exact absurd (List.length_eq_zero.1 (by simpa using hlen)) hne
  have hle : ∀ sc3, Reachable API_URL sc3 → sc3.inflight.length ≤ 1 := by
    intro sc3 h3
    obtain ⟨h3len, _⟩ := reachable_consistent API_URL sc3 h3
    rw [h3len]
    split <;> simp
  have hnone : sc.inflight ≠ [] → step API_URL sc .trigger = none := by
    intro hne
    simp [step, triggerEnabled, hload hne]
  refine ⟨hle sc h, fun hne => ⟨hload hne, hnone hne⟩, ?_⟩
  intro sc2 hs
  refine ⟨?_, hle sc2 (Reachable.next sc .trigger sc2 h hs)⟩
  by_contra hne
  rw [hnone hne] at hs
  cases hs

/-- C7 at the screen that waits for the response to the upload of `leafA`. -/
theorem single_request_in_flight_witness :
    Reachable (some sampleUrl) predictingScreen ∧
      predictingScreen.inflight.length ≤ 1 ∧
      step (some sampleUrl) predictingScreen .trigger = none :=
  have hr : Reachable (some sampleUrl) predictingScreen :=
    reachable_of_runEvents (some sampleUrl)
      [.pick granted (picked leafA []), .trigger]
      Screen.initial predictingScreen Reachable.initial rfl
  ⟨hr, (single_request_in_flight (some sampleUrl) predictingScreen hr).1,
    ((single_request_in_flight (some sampleUrl) predictingScreen hr).2.1
      (by simp [predictingScreen])).2⟩

/-- C10 fails on the code. The "Select" button stays enabled while a request is
outstanding: picking `leafA`, pressing "Get Prediction", picking `leafB` and
then receiving the response for `leafA` gives a reachable screen that shows
`leafB` together with the prediction computed for `leafA`.  The other half of
the claim holds: in every reachable screen a stored prediction comes with a
selected image. -/
theorem stale_prediction_after_repick :
    runEvents (some sampleUrl) Screen.initial
        [.pick granted (picked leafA []), .trigger, .pick granted (picked leafB []),
          .complete 0 (.resolved lateBlight)] = some staleScreen ∧
      Reachable (some sampleUrl) staleScreen ∧
      staleScreen.state.selectedImage = some leafB ∧
      staleScreen.state.prediction = lateBlight ∧
      staleScreen.source = some leafA ∧
      ¬ staleScreen.PredictionOfSelected ∧
      (∀ API_URL sc, Reachable API_URL sc → sc.state.prediction ≠ .null →
        truthy sc.state.selectedImage = true) :=
  ⟨rfl,
    reachable_of_runEvents (some sampleUrl)
      [.pick granted (picked leafA []), .trigger, .pick granted (picked leafB []),
        .complete 0 (.resolved lateBlight)]
      Screen.initial staleScreen Reachable.initial rfl,
    rfl, rfl, rfl,
    fun h => absurd (h (fun e => JSValue.noConfusion e)).2 (by decide),
    reachable_prediction_has_image⟩

end PotatoLeafDetector
